import Mathlib

/-!
Verification development for the client-side authorization and data-access
core of `maidsafe/temp_safe_network`.

The repository ships only the C FFI declaration headers (under
`src/include/`); the bodies behind `mdata_mutate_entries`,
`mdata_permission_set_is_allowed`, the IPC encode/decode functions, the
self-encryption writer/reader, the capability registry and the revocation
queue are not part of the source tree.  Following the spec, those behaviors
are modelled here as executable Lean functions; enumerations and request
structures that do appear verbatim in the headers
(`MDataAction`, `PermissionValue`, `PermissionSet`, `AuthReq`,
`ContainersReq`, `ShareMDataReq`, ...) are translated from the headers
directly.
-/

namespace SafeNet

/-- Byte strings (keys, values, app ids, tokens) are modelled as lists of
naturals. -/
abbrev Bytes := List Nat

/-- Error kinds of the result contract (spec section 7): `HandleInvalid`,
`VersionConflict`, `PermissionDenied`, `CryptoError`, `DecodeError`,
`AlreadyExists`, `NotFound`, ... -/
inductive SafeError
  | handleInvalid
  | handleTypeMismatch
  | versionConflict
  | permissionDenied
  | cryptoError
  | decodeError (cause : String)
  | alreadyExists
  | notFound
  deriving DecidableEq, Repr

/-! ## Permissions (translated from src/include/safe_app/mutable_data/permissions.h) -/

/-- Permission actions (enum `MDataAction` in permissions.h): insert new
entries, update existing entries, delete existing entries, manage
permissions. -/
inductive MDataAction
  | insert
  | update
  | delete
  | managePermissions
  deriving DecidableEq, Repr

/-- State of an action in a permission set (enum `PermissionValue` in
permissions.h): explicit permission not set, allowed, or denied. -/
inductive PermissionValue
  | notSet
  | allowed
  | denied
  deriving DecidableEq, Repr

/-- Modelled from the spec: the stored tri-state permission set behind a
`MDataPermissionSetHandle` (the Rust implementation behind
`mdata_permission_set_new` is not in src/).  One tri-state value per
permission axis. -/
structure MDataPermissionSet where
  insertPerm : PermissionValue
  updatePerm : PermissionValue
  deletePerm : PermissionValue
  managePerm : PermissionValue
  deriving DecidableEq, Repr

/-- Modelled from the spec: reading one axis of a stored permission set,
the pure content of `mdata_permission_set_is_allowed` (its body is not in
src/). -/
def mdata_permission_set_is_allowed (s : MDataPermissionSet) (a : MDataAction) :
    PermissionValue :=
  match a with
  | .insert => s.insertPerm
  | .update => s.updatePerm
  | .delete => s.deletePerm
  | .managePermissions => s.managePerm

/-- A user identity for the access-control list: a specific signing key, or
the distinguished `USER_ANYONE` sentinel (spec section 4.4). -/
inductive MDataUser
  | specific (key : Nat)
  | anyone
  deriving DecidableEq, Repr

/-- Modelled from the spec: the stored access-control list of a mutable
record, mapping users (specific signing keys or the "anyone" sentinel) to
tri-state permission sets; the storage behind `MDataPermissionsHandle` is
not in src/. -/
abbrev MDataPermissions := List (MDataUser × MDataPermissionSet)

/-- Look up the permission set stored for a user (`mdata_permissions_get`);
`none` when the user has no entry. -/
def mdataPermissionsGet (ps : MDataPermissions) (u : MDataUser) :
    Option MDataPermissionSet :=
  (ps.find? (fun e => e.fst = u)).map (·.snd)

/-- The tri-state value recorded for `(user, action)`: `notSet` when the
user has no entry at all. -/
def userActionValue (ps : MDataPermissions) (u : MDataUser) (a : MDataAction) :
    PermissionValue :=
  match mdataPermissionsGet ps u with
  | some s => mdata_permission_set_is_allowed s a
  | none => .notSet

/-- Modelled from the spec (section 4.5, tri-state policy evaluation; the
network-side permission check behind `mdata_mutate_entries` and friends is
not in src/): effective decision for `(user, action)` — user-specific deny,
else user-specific allow, else the "anyone" entry with the same rule, else
owner override, else deny. -/
def effectiveDecision (ps : MDataPermissions) (ownerKey : Nat) (userKey : Nat)
    (a : MDataAction) : Bool :=
  match userActionValue ps (.specific userKey) a with
  | .denied => false
  | .allowed => true
  | .notSet =>
    match userActionValue ps .anyone a with
    | .denied => false
    | .allowed => true
    | .notSet => userKey = ownerKey

/-! ## Entries and entry actions
(entry_actions.h declares the builders; the mutation semantics is modelled
from the spec) -/

/-- A stored entry value: content bytes plus the per-key version counter
(spec section 3, `MutableDataEntry`). -/
structure MDataValue where
  content : Bytes
  version : Nat
  deriving DecidableEq, Repr

/-- The entries of one mutable record: an association list from keys to
values (behind `MDataEntriesHandle`). -/
abbrev MDataEntries := List (Bytes × MDataValue)

/-- Look up the value stored at a key. -/
def lookupEntry (es : MDataEntries) (k : Bytes) : Option MDataValue :=
  (es.find? (fun e => e.fst = k)).map (·.snd)

/-- One entry action (spec section 3, `EntryAction`): insert a new entry,
update an existing entry under an expected version, or delete an existing
entry under an expected version.  Matches the builders
`mdata_entry_actions_insert` / `..._update` / `..._delete` in
entry_actions.h. -/
inductive MDataEntryAction
  | insert (key : Bytes) (value : Bytes)
  | update (key : Bytes) (value : Bytes) (entryVersion : Nat)
  | delete (key : Bytes) (entryVersion : Nat)
  deriving DecidableEq, Repr

/-- Does this action carry an expected version that differs from the
current version of the (existing) entry it targets? -/
def actionVersionConflict (es : MDataEntries) : MDataEntryAction → Bool
  | .insert _ _ => false
  | .update k _ v =>
    match lookupEntry es k with
    | some val => val.version ≠ v
    | none => false
  | .delete k v =>
    match lookupEntry es k with
    | some val => val.version ≠ v
    | none => false

/-- Does this action fail a non-version precondition: inserting a key that
already exists, or updating/deleting a key that does not exist? -/
def actionTargetBad (es : MDataEntries) : MDataEntryAction → Bool
  | .insert k _ => (lookupEntry es k).isSome
  | .update k _ _ => (lookupEntry es k).isNone
  | .delete k _ => (lookupEntry es k).isNone

/-- Apply one validated action to the entries. -/
def applyAction (es : MDataEntries) : MDataEntryAction → MDataEntries
  | .insert k v => (k, ⟨v, 0⟩) :: es
  | .update k v ver =>
    es.map (fun e => if e.fst = k then (k, ⟨v, ver + 1⟩) else e)
  | .delete k _ => es.filter (fun e => ¬ e.fst = k)

/-- Modelled from the spec (section 4.4 `mutate`; the body of
`mdata_mutate_entries` is not in src/): the batch is validated as a whole
against the current entries — if any single action carries a stale expected
version the whole batch fails with `VersionConflict`, otherwise if some
action violates an existence precondition the batch fails, and only a fully
valid batch is applied. -/
def mdata_mutate_entries (es : MDataEntries) (acts : List MDataEntryAction) :
    Except SafeError MDataEntries :=
  if acts.any (actionVersionConflict es) then
    .error .versionConflict
  else if acts.any (actionTargetBad es) then
    .error .notFound
  else
    .ok (acts.foldl applyAction es)

/-- Modelled from the spec (section 4.4; the body of `mdata_get_value` is
not in src/): return the value bytes exactly as stored together with the
entry version — per the header comment on `mdata_get_value`, a value
fetched from a private mutable record is not automatically decrypted. -/
def mdata_get_value (es : MDataEntries) (k : Bytes) :
    Except SafeError (Bytes × Nat) :=
  match lookupEntry es k with
  | some val => .ok (val.content, val.version)
  | none => .error .notFound

/-! ## MDataInfo and entry-value encryption
(mdata_info.h declares `mdata_info_decrypt`; the keying model is from the
spec, section 3 `MutableDataInfo`) -/

/-- Identity of a mutable record plus, for private records, the symmetric
key and nonce used to encrypt entry keys and values (spec section 3,
`MutableDataInfo`); public records carry no keying material. -/
structure MDataInfo where
  name : Bytes
  typeTag : Nat
  encInfo : Option (Nat × Nat)
  deriving DecidableEq, Repr

/-- Modelled from the spec: symmetric encryption of a byte string under a
key and nonce (the secretbox primitive behind `mdata_info_encrypt_entry_value`
is not in src/); modelled as an invertible keyed transform that tags the
ciphertext with key and nonce. -/
def symEncrypt (key nonce : Nat) (plain : Bytes) : Bytes :=
  key :: nonce :: plain.map (fun b => b + key)

/-- Modelled from the spec: symmetric decryption, the inverse of
`symEncrypt`; fails on ciphertext not produced under the given key and
nonce. -/
def symDecrypt (key nonce : Nat) (cipher : Bytes) : Option Bytes :=
  match cipher with
  | k :: n :: data =>
    if k = key ∧ n = nonce then some (data.map (fun b => b - key)) else none
  | _ => none

/-- Modelled from the spec: encrypting an entry value with the record's
keying info; for a public record (no keying material) the value is stored
as given. -/
def mdata_info_encrypt_entry_value (info : MDataInfo) (plain : Bytes) : Bytes :=
  match info.encInfo with
  | some (key, nonce) => symEncrypt key nonce plain
  | none => plain

/-- Modelled from the spec: `mdata_info_decrypt` (body not in src/) —
explicitly decrypt a fetched value using the record's keying info; on a
public record the input is returned unchanged. -/
def mdata_info_decrypt (info : MDataInfo) (cipher : Bytes) :
    Except SafeError Bytes :=
  match info.encInfo with
  | some (key, nonce) =>
    match symDecrypt key nonce cipher with
    | some plain => .ok plain
    | none => .error .cryptoError
  | none => .ok cipher

/-! ## CapabilityRegistry -/

/-- A registry handle: slot index plus the generation the slot had when the
object was created (spec section 9: generation-checked slot map). -/
structure ObjectHandle where
  index : Nat
  gen : Nat
  deriving DecidableEq, Repr

/-- Modelled from the spec (sections 4.1 and 9; the Rust object cache
behind the `*Handle` types is not in src/): a generation-checked slot map.
Each slot carries its current generation and the live object, if any. -/
structure Registry (α : Type) where
  slots : List (Nat × Option α)
  deriving DecidableEq, Repr

/-- Modelled from the spec: `resolve(Handle)` — dereference a handle; fails
with `HandleInvalid` when the slot is out of range, freed, or of a stale
generation. -/
def Registry.resolve (reg : Registry α) (h : ObjectHandle) :
    Except SafeError α :=
  match reg.slots[h.index]? with
  | some (g, some obj) => if g = h.gen then .ok obj else .error .handleInvalid
  | _ => .error .handleInvalid

/-- Modelled from the spec: `free(Handle)` — release the object and bump
the slot generation so the handle can never be resolved again; fails with
`HandleInvalid` on an already-freed or stale handle, leaving the registry
unchanged. -/
def Registry.free (reg : Registry α) (h : ObjectHandle) :
    Except SafeError (Registry α) :=
  match reg.slots[h.index]? with
  | some (g, some _) =>
    if g = h.gen then .ok ⟨reg.slots.set h.index (g + 1, none)⟩
    else .error .handleInvalid
  | _ => .error .handleInvalid

/-- Modelled from the spec: `create(object)` — append a fresh slot and
return its handle. -/
def Registry.create (reg : Registry α) (obj : α) : Registry α × ObjectHandle :=
  (⟨reg.slots ++ [(0, some obj)]⟩, ⟨reg.slots.length, 0⟩)

/-! ## CipherOpt and the self-encryption content store -/

/-- Encryption policy for an immutable byte stream (spec section 3,
`CipherOpt`; constructors declared in cipher_opt.h): plain text, symmetric
under the app's key, or asymmetric towards a peer public key. -/
inductive CipherOpt
  | plainText
  | symmetric (key : Nat)
  | asymmetric (peerKey : Nat)
  deriving DecidableEq, Repr

/-- Modelled from the spec (section 4.6; the self-encryption crate is not
in src/): encrypting the accumulated content under a cipher option, as an
invertible tagged transform. -/
def cipherEncrypt (co : CipherOpt) (data : Bytes) : Bytes :=
  match co with
  | .plainText => 0 :: data
  | .symmetric key => 1 :: key :: data.map (fun b => b + key)
  | .asymmetric peerKey => 2 :: peerKey :: data.map (fun b => b + peerKey)

/-- Modelled from the spec: decrypting a self-encrypted blob, the inverse
of `cipherEncrypt`; fails on an unrecognized tag. -/
def cipherDecrypt (cipher : Bytes) : Option Bytes :=
  match cipher with
  | 0 :: data => some data
  | 1 :: key :: data => some (data.map (fun b => b - key))
  | 2 :: key :: data => some (data.map (fun b => b - key))
  | _ => none

/-- A content address (`XorNameArray`): modelled from the spec as the
deterministic derivation from the encrypted chunk map — the fixed-width
hash is modelled as an injective function of the encrypted content. -/
abbrev XorName := Bytes

/-- The network-resident immutable content store: a map from content
address to encrypted blob. -/
abbrev ContentStore := List (XorName × Bytes)

/-- Modelled from the spec: the self-encryption writer behind
`SEWriterHandle` — writes accumulate into an internal buffer. -/
structure SEWriter where
  buffer : Bytes
  deriving DecidableEq, Repr

/-- Modelled from the spec: `idata_new_self_encryptor` — a fresh writer
with an empty buffer. -/
def idata_new_self_encryptor : SEWriter := ⟨[]⟩

/-- Modelled from the spec: `idata_write_to_self_encryptor` — append a
chunk to the writer's buffer. -/
def idata_write_to_self_encryptor (w : SEWriter) (data : Bytes) : SEWriter :=
  ⟨w.buffer ++ data⟩

/-- Modelled from the spec: the content address returned by
`idata_close_self_encryptor` — deterministically derived from the content
encrypted under the cipher option. -/
def closeContentAddress (co : CipherOpt) (content : Bytes) : XorName :=
  cipherEncrypt co content

/-- Modelled from the spec: the store after `idata_close_self_encryptor`
commits the encrypted blob at its content address. -/
def closeStore (store : ContentStore) (co : CipherOpt) (content : Bytes) :
    ContentStore :=
  (closeContentAddress co content, cipherEncrypt co content) :: store

/-- Modelled from the spec: the self-encryption reader behind
`SEReaderHandle`, holding the decrypted content for range reads. -/
structure SEReader where
  plain : Bytes
  deriving DecidableEq, Repr

/-- Modelled from the spec: `idata_fetch_self_encryptor` — look up the blob
at a content address and open a reader over it. -/
def idata_fetch_self_encryptor (store : ContentStore) (name : XorName) :
    Except SafeError SEReader :=
  match (store.find? (fun e => e.fst = name)).map (·.snd) with
  | some cipher =>
    match cipherDecrypt cipher with
    | some plain => .ok ⟨plain⟩
    | none => .error .cryptoError
  | none => .error .notFound

/-- Modelled from the spec: `idata_size` — total size of the content behind
a reader. -/
def idata_size (r : SEReader) : Nat := r.plain.length

/-- Modelled from the spec: `idata_read_from_self_encryptor` — read an
arbitrary sub-range of the content. -/
def idata_read_from_self_encryptor (r : SEReader) (fromPos len : Nat) :
    Except SafeError Bytes :=
  if fromPos + len ≤ r.plain.length then
    .ok ((r.plain.drop fromPos).take len)
  else
    .error .notFound

/-! ## App-context immutable-data operations over writer handles
(handle bookkeeping modelled from the spec, sections 4.1 and 4.6; the
header comment on `idata_close_self_encryptor` states that close also
frees the writer handle) -/

/-- The slice of an app's context that the immutable-data calls touch: the
registry of live self-encryption writers and the content store. -/
structure AppIData where
  seWriters : Registry SEWriter
  store : ContentStore
  deriving DecidableEq, Repr

/-- Modelled from the spec: `idata_write_to_self_encryptor` at the handle
level — resolve the writer handle, append the chunk, store the writer
back. -/
def appIDataWrite (ctx : AppIData) (h : ObjectHandle) (data : Bytes) :
    Except SafeError AppIData :=
  match ctx.seWriters.resolve h with
  | .ok w =>
    .ok ⟨⟨ctx.seWriters.slots.set h.index
          (h.gen, some (idata_write_to_self_encryptor w data))⟩, ctx.store⟩
  | .error e => .error e

/-- Modelled from the spec: `idata_close_self_encryptor` at the handle
level — resolve the writer, commit the encrypted blob, return its content
address, and free the writer handle (per the header comment on
`idata_close_self_encryptor`). -/
def appIDataClose (ctx : AppIData) (h : ObjectHandle) (co : CipherOpt) :
    Except SafeError (AppIData × XorName) :=
  match ctx.seWriters.resolve h with
  | .ok w =>
    match ctx.seWriters.free h with
    | .ok reg => .ok (⟨reg, closeStore ctx.store co w.buffer⟩,
                      closeContentAddress co w.buffer)
    | .error e => .error e
  | .error e => .error e

/-- Modelled from the spec: `idata_self_encryptor_writer_free` at the
handle level — free the writer handle, discarding uncommitted data. -/
def appIDataWriterFree (ctx : AppIData) (h : ObjectHandle) :
    Except SafeError AppIData :=
  match ctx.seWriters.free h with
  | .ok reg => .ok ⟨reg, ctx.store⟩
  | .error e => .error e

/-! ## IPC request structures (translated from src/include/safe_core/ipc/req.h) -/

/-- A requested set of permission changes (struct `PermissionSet` in
req.h): one boolean per axis — read, insert, update, delete, manage
permissions. -/
structure PermissionSet where
  read : Bool
  insert : Bool
  update : Bool
  delete : Bool
  manage_permissions : Bool
  deriving DecidableEq, Repr

/-- An application identity in an authorization exchange (struct
`AppExchangeInfo` in req.h): id, optional scope, friendly name, vendor. -/
structure AppExchangeInfo where
  id : Bytes
  scope : Option Bytes
  name : Bytes
  vendor : Bytes
  deriving DecidableEq, Repr

/-- Requested permissions for one named container (struct
`ContainerPermissions` in req.h). -/
structure ContainerPermissions where
  cont_name : Bytes
  access : PermissionSet
  deriving DecidableEq, Repr

/-- An authorization request (struct `AuthReq` in req.h): app identity,
dedicated-container flag, and requested container permissions. -/
structure AuthReq where
  app : AppExchangeInfo
  app_container : Bool
  containers : List ContainerPermissions
  deriving DecidableEq, Repr

/-- A containers request (struct `ContainersReq` in req.h). -/
structure ContainersReq where
  app : AppExchangeInfo
  containers : List ContainerPermissions
  deriving DecidableEq, Repr

/-- One mutable record being shared (struct `ShareMData` in req.h): type
tag, record name, requested permissions. -/
structure ShareMData where
  type_tag : Nat
  name : Bytes
  perms : PermissionSet
  deriving DecidableEq, Repr

/-- A share-mutable-data request (struct `ShareMDataReq` in req.h). -/
structure ShareMDataReq where
  app : AppExchangeInfo
  mdata : List ShareMData
  deriving DecidableEq, Repr

/-- The tagged union of IPC request variants (spec section 3,
`AuthRequest`): authorization, containers, unregistered, share mutable
data. -/
inductive AuthRequest
  | authReq (r : AuthReq)
  | containersReq (r : ContainersReq)
  | unregisteredReq
  | shareMDataReq (r : ShareMDataReq)
  deriving DecidableEq, Repr

/-! ## IPC token serialization
Modelled from the spec (section 4.2: encoding serializes the request and
produces an opaque transport-safe token; the serde/base64 pipeline behind
`encode_auth_req` and `auth_decode_ipc_msg` is not in src/).  Tokens are
modelled as symbol lists; each parser consumes a prefix and returns the
unread tail. -/

/-- Serialize one natural. -/
def serNat (n : Nat) : Bytes := [n]

/-- Parse one natural off the front of a token. -/
def parseNat : Bytes → Option (Nat × Bytes)
  | [] => none
  | n :: rest => some (n, rest)

/-- Serialize one boolean. -/
def serBool (b : Bool) : Bytes := [if b then 1 else 0]

/-- Parse one boolean; only the canonical symbols 0 and 1 are accepted. -/
def parseBool : Bytes → Option (Bool × Bytes)
  | 0 :: rest => some (false, rest)
  | 1 :: rest => some (true, rest)
  | _ => none

/-- Take exactly `n` symbols off the front of a token. -/
def takeSymbols : Nat → Bytes → Option (Bytes × Bytes)
  | 0, l => some ([], l)
  | _ + 1, [] => none
  | n + 1, x :: rest =>
    match takeSymbols n rest with
    | some (bs, r) => some (x :: bs, r)
    | none => none

/-- Serialize a byte string: length prefix followed by the content. -/
def serBytes (bs : Bytes) : Bytes := bs.length :: bs

/-- Parse a length-prefixed byte string. -/
def parseBytes (l : Bytes) : Option (Bytes × Bytes) :=
  match parseNat l with
  | some (n, rest) => takeSymbols n rest
  | none => none

/-- Serialize an optional byte string: presence marker then the content. -/
def serOptBytes : Option Bytes → Bytes
  | none => [0]
  | some bs => 1 :: serBytes bs

/-- Parse an optional byte string. -/
def parseOptBytes : Bytes → Option (Option Bytes × Bytes)
  | [] => none
  | a :: rest =>
    if a = 0 then some (none, rest)
    else if a = 1 then
      match parseBytes rest with
      | some (bs, r) => some (some bs, r)
      | none => none
    else none

/-- Serialize a list: length prefix followed by the serialized elements. -/
def serListWith (f : α → Bytes) (xs : List α) : Bytes :=
  xs.length :: (xs.map f).flatten

/-- Parse exactly `n` elements with the element parser `p`. -/
def parseCount (p : Bytes → Option (α × Bytes)) : Nat → Bytes → Option (List α × Bytes)
  | 0, l => some ([], l)
  | n + 1, l =>
    match p l with
    | some (x, r) =>
      match parseCount p n r with
      | some (xs, r2) => some (x :: xs, r2)
      | none => none
    | none => none

/-- Parse a length-prefixed list with the element parser `p`. -/
def parseListWith (p : Bytes → Option (α × Bytes)) (l : Bytes) :
    Option (List α × Bytes) :=
  match parseNat l with
  | some (n, rest) => parseCount p n rest
  | none => none

/-- Serialize a requested permission set (five booleans). -/
def serPermissionSet (s : PermissionSet) : Bytes :=
  serBool s.read ++ serBool s.insert ++ serBool s.update ++ serBool s.delete ++
    serBool s.manage_permissions

/-- Parse a requested permission set. -/
def parsePermissionSet (l : Bytes) : Option (PermissionSet × Bytes) :=
  match parseBool l with
  | some (r, l1) =>
    match parseBool l1 with
    | some (i, l2) =>
      match parseBool l2 with
      | some (u, l3) =>
        match parseBool l3 with
        | some (d, l4) =>
          match parseBool l4 with
          | some (m, l5) => some (⟨r, i, u, d, m⟩, l5)
          | none => none
        | none => none
      | none => none
    | none => none
  | none => none

/-- Serialize an app identity. -/
def serAppExchangeInfo (a : AppExchangeInfo) : Bytes :=
  serBytes a.id ++ serOptBytes a.scope ++ serBytes a.name ++ serBytes a.vendor

/-- Parse an app identity. -/
def parseAppExchangeInfo (l : Bytes) : Option (AppExchangeInfo × Bytes) :=
  match parseBytes l with
  | some (i, l1) =>
    match parseOptBytes l1 with
    | some (s, l2) =>
      match parseBytes l2 with
      | some (n, l3) =>
        match parseBytes l3 with
        | some (v, l4) => some (⟨i, s, n, v⟩, l4)
        | none => none
      | none => none
    | none => none
  | none => none

/-- Serialize one container-permissions entry. -/
def serContainerPermissions (c : ContainerPermissions) : Bytes :=
  serBytes c.cont_name ++ serPermissionSet c.access

/-- Parse one container-permissions entry. -/
def parseContainerPermissions (l : Bytes) : Option (ContainerPermissions × Bytes) :=
  match parseBytes l with
  | some (n, l1) =>
    match parsePermissionSet l1 with
    | some (a, l2) => some (⟨n, a⟩, l2)
    | none => none
  | none => none

/-- Serialize one shared-record descriptor. -/
def serShareMData (s : ShareMData) : Bytes :=
  serNat s.type_tag ++ serBytes s.name ++ serPermissionSet s.perms

/-- Parse one shared-record descriptor. -/
def parseShareMData (l : Bytes) : Option (ShareMData × Bytes) :=
  match parseNat l with
  | some (t, l1) =>
    match parseBytes l1 with
    | some (n, l2) =>
      match parsePermissionSet l2 with
      | some (p, l3) => some (⟨t, n, p⟩, l3)
      | none => none
    | none => none
  | none => none

/-- Serialize an authorization request. -/
def serAuthReq (r : AuthReq) : Bytes :=
  serAppExchangeInfo r.app ++ serBool r.app_container ++
    serListWith serContainerPermissions r.containers

/-- Parse an authorization request. -/
def parseAuthReq (l : Bytes) : Option (AuthReq × Bytes) :=
  match parseAppExchangeInfo l with
  | some (a, l1) =>
    match parseBool l1 with
    | some (c, l2) =>
      match parseListWith parseContainerPermissions l2 with
      | some (cs, l3) => some (⟨a, c, cs⟩, l3)
      | none => none
    | none => none
  | none => none

/-- Serialize a containers request. -/
def serContainersReq (r : ContainersReq) : Bytes :=
  serAppExchangeInfo r.app ++ serListWith serContainerPermissions r.containers

/-- Parse a containers request. -/
def parseContainersReq (l : Bytes) : Option (ContainersReq × Bytes) :=
  match parseAppExchangeInfo l with
  | some (a, l1) =>
    match parseListWith parseContainerPermissions l1 with
    | some (cs, l2) => some (⟨a, cs⟩, l2)
    | none => none
  | none => none

/-- Serialize a share-mutable-data request. -/
def serShareMDataReq (r : ShareMDataReq) : Bytes :=
  serAppExchangeInfo r.app ++ serListWith serShareMData r.mdata

/-- Parse a share-mutable-data request. -/
def parseShareMDataReq (l : Bytes) : Option (ShareMDataReq × Bytes) :=
  match parseAppExchangeInfo l with
  | some (a, l1) =>
    match parseListWith parseShareMData l1 with
    | some (ms, l2) => some (⟨a, ms⟩, l2)
    | none => none
  | none => none

/-- Serialize a tagged request variant. -/
def serAuthRequest : AuthRequest → Bytes
  | .authReq r => 0 :: serAuthReq r
  | .containersReq r => 1 :: serContainersReq r
  | .unregisteredReq => [2]
  | .shareMDataReq r => 3 :: serShareMDataReq r

/-- Parse a tagged request variant. -/
def parseAuthRequest : Bytes → Option (AuthRequest × Bytes)
  | [] => none
  | tag :: rest =>
    if tag = 0 then
      match parseAuthReq rest with
      | some (r, l) => some (.authReq r, l)
      | none => none
    else if tag = 1 then
      match parseContainersReq rest with
      | some (r, l) => some (.containersReq r, l)
      | none => none
    else if tag = 2 then some (.unregisteredReq, rest)
    else if tag = 3 then
      match parseShareMDataReq rest with
      | some (r, l) => some (.shareMDataReq r, l)
      | none => none
    else none

/-- Modelled from the spec: the full IPC token produced by
`encode_auth_req` / `encode_containers_req` / `encode_unregistered_req` /
`encode_share_mdata_req` — the assigned correlation id followed by the
serialized tagged request. -/
def ipcEncodeRequest (reqId : Nat) (r : AuthRequest) : Bytes :=
  serNat reqId ++ serAuthRequest r

/-- The outcome of decoding an IPC request token on the authenticator
side: exactly one of the variant callbacks of `auth_decode_ipc_msg`, or
the error callback with a `DecodeError` cause. -/
inductive IpcDecodeOutcome
  | auth (reqId : Nat) (req : AuthReq)
  | containers (reqId : Nat) (req : ContainersReq)
  | unregistered (reqId : Nat)
  | shareMData (reqId : Nat) (req : ShareMDataReq)
  | err (cause : String)
  deriving DecidableEq, Repr

/-- The variant callback a well-formed request token dispatches to. -/
def outcomeOfRequest (reqId : Nat) : AuthRequest → IpcDecodeOutcome
  | .authReq r => .auth reqId r
  | .containersReq r => .containers reqId r
  | .unregisteredReq => .unregistered reqId
  | .shareMDataReq r => .shareMData reqId r

/-- Modelled from the spec: `auth_decode_ipc_msg` (body not in src/) —
parse the correlation id and the tagged request; a token that does not
parse, or has trailing garbage, dispatches to the error callback with a
`DecodeError` cause. -/
def auth_decode_ipc_msg (msg : Bytes) : IpcDecodeOutcome :=
  match parseNat msg with
  | some (reqId, rest) =>
    match parseAuthRequest rest with
    | some (req, []) => outcomeOfRequest reqId req
    | _ => .err "CoreError - Unexpected: malformed IPC token"
  | none => .err "CoreError - Unexpected: malformed IPC token"

/-! ## RevocationQueue -/

/-- Modelled from the spec (section 4.7; the revocation machinery behind
`auth_revoke_app` and `auth_flush_app_revocation_queue` is not in src/):
the authenticator state a revocation step mutates — the registered-apps
list, the per-app container permission grants, and the access-container
re-key counter. -/
structure AuthStore where
  registeredApps : List Bytes
  containerPerms : List (Bytes × Bytes)
  accessContainerKeyGen : Nat
  deriving DecidableEq, Repr

/-- Modelled from the spec: one revocation step — strip the app's
container permission entries, rotate the access-container encryption, and
remove the app from the registered-apps list. -/
def revokeStep (s : AuthStore) (appId : Bytes) : AuthStore :=
  { registeredApps := s.registeredApps.filter (fun a => ¬ a = appId)
    containerPerms := s.containerPerms.filter (fun e => ¬ e.fst = appId)
    accessContainerKeyGen := s.accessContainerKeyGen + 1 }

/-- The authenticator state together with the FIFO revocation queue. -/
structure AuthState where
  store : AuthStore
  revocationQueue : List Bytes
  deriving DecidableEq, Repr

/-- Modelled from the spec: enqueue an app for revocation (the queueing
half of `auth_revoke_app`). -/
def enqueueRevocation (st : AuthState) (appId : Bytes) : AuthState :=
  ⟨st.store, st.revocationQueue ++ [appId]⟩

/-- Modelled from the spec: `auth_flush_app_revocation_queue` run to
completion — process every queued revocation strictly in FIFO order and
leave the queue empty. -/
def auth_flush_app_revocation_queue (st : AuthState) : AuthState :=
  ⟨st.revocationQueue.foldl revokeStep st.store, []⟩

/-- Modelled from the spec: a flush that fails after completing the first
`k` steps — the completed steps are applied and the unprocessed tail stays
queued. -/
def flushUpTo (k : Nat) (st : AuthState) : AuthState :=
  ⟨(st.revocationQueue.take k).foldl revokeStep st.store,
    st.revocationQueue.drop k⟩

/-- Write a list of chunks, in order, to a fresh self-encryption writer. -/
def writeChunks (chunks : List Bytes) : SEWriter :=
  chunks.foldl idata_write_to_self_encryptor idata_new_self_encryptor

/-! ## Helper lemmas -/

theorem foldlWrite_buffer (chunks : List Bytes) (b : Bytes) :
    (chunks.foldl idata_write_to_self_encryptor ⟨b⟩).buffer = b ++ chunks.flatten := by
  induction chunks generalizing b with
  | nil => simp
  | cons c cs ih =>
    simp only [List.foldl_cons, idata_write_to_self_encryptor, List.flatten_cons]
    rw [ih, List.append_assoc]

theorem writeChunks_buffer (chunks : List Bytes) :
    (writeChunks chunks).buffer = chunks.flatten := by
  simpa [writeChunks, idata_new_self_encryptor] using foldlWrite_buffer chunks []

theorem cipherDecrypt_cipherEncrypt (co : CipherOpt) (d : Bytes) :
    cipherDecrypt (cipherEncrypt co d) = some d := by
  cases co <;>
    simp [cipherEncrypt, cipherDecrypt, List.map_map, Function.comp_def]

theorem symDecrypt_symEncrypt (key nonce : Nat) (plain : Bytes) :
    symDecrypt key nonce (symEncrypt key nonce plain) = some plain := by
  simp [symEncrypt, symDecrypt, List.map_map, Function.comp_def]

theorem Registry.free_ok_shape {α : Type} (reg reg2 : Registry α)
    (h : ObjectHandle) (hf : reg.free h = .ok reg2) :
    reg2.slots[h.index]? = some (h.gen + 1, none) := by
  unfold Registry.free at hf
  split at hf
  case _ g obj heq =>
    split at hf
    case isTrue hg =>
      cases hf
      subst hg
      have hlt : h.index < reg.slots.length := by
        by_contra hge
        rw [List.getElem?_eq_none (Nat.le_of_not_lt hge)] at heq
        exact Option.noConfusion heq
      exact List.getElem?_set_eq_of_lt _ hlt
    case isFalse => exact Except.noConfusion hf
  case _ => exact Except.noConfusion hf

theorem Registry.resolve_after_free {α : Type} (reg reg2 : Registry α)
    (h : ObjectHandle) (hf : reg.free h = .ok reg2) :
    reg2.resolve h = .error .handleInvalid := by
  unfold Registry.resolve
  rw [Registry.free_ok_shape reg reg2 h hf]

theorem Registry.free_after_free {α : Type} (reg reg2 : Registry α)
    (h : ObjectHandle) (hf : reg.free h = .ok reg2) :
    reg2.free h = .error .handleInvalid := by
  unfold Registry.free
  rw [Registry.free_ok_shape reg reg2 h hf]

/-! ### Serializer round-trip and canonicity lemmas -/

theorem parseNat_ser (n : Nat) (rest : Bytes) :
    parseNat (serNat n ++ rest) = some (n, rest) := rfl

theorem parseNat_canon {l : Bytes} {n : Nat} {rest : Bytes}
    (h : parseNat l = some (n, rest)) : l = serNat n ++ rest := by
  cases l with
  | nil => exact Option.noConfusion h
  | cons a t =>
    simp only [parseNat, Option.some.injEq, Prod.mk.injEq] at h
    simp [serNat, h.1, h.2]

theorem parseBool_ser (b : Bool) (rest : Bytes) :
    parseBool (serBool b ++ rest) = some (b, rest) := by
  cases b <;> rfl

theorem parseBool_canon {l : Bytes} {b : Bool} {rest : Bytes}
    (h : parseBool l = some (b, rest)) : l = serBool b ++ rest := by
  cases l with
  | nil => exact Option.noConfusion h
  | cons a t =>
    rcases a with _ | a
    · simp only [parseBool, Option.some.injEq, Prod.mk.injEq] at h
      simp [serBool, ← h.1, h.2]
    · rcases a with _ | a
      · simp only [parseBool, Option.some.injEq, Prod.mk.injEq] at h
        simp [serBool, ← h.1, h.2]
      · exact Option.noConfusion h

theorem takeSymbols_append (bs rest : Bytes) :
    takeSymbols bs.length (bs ++ rest) = some (bs, rest) := by
  induction bs with
  | nil => rfl
  | cons x t ih => simp [takeSymbols, ih]

theorem takeSymbols_canon :
    ∀ (n : Nat) (l bs r : Bytes), takeSymbols n l = some (bs, r) →
      l = bs ++ r ∧ bs.length = n := by
  intro n
  induction n with
  | zero =>
    intro l bs r h
    simp only [takeSymbols, Option.some.injEq, Prod.mk.injEq] at h
    simp [← h.1, ← h.2]
  | succ n ih =>
    intro l bs r h
    cases l with
    | nil => exact Option.noConfusion h
    | cons x t =>
      unfold takeSymbols at h
      split at h
      case _ bs2 r2 heq =>
        rw [Option.some.injEq, Prod.mk.injEq] at h
        obtain ⟨hbs, hr⟩ := h
        obtain ⟨ht, hlen⟩ := ih t bs2 r2 heq
        subst hbs
        subst hr
        simp [ht, hlen]
      case _ => exact Option.noConfusion h

theorem parseBytes_ser (bs rest : Bytes) :
    parseBytes (serBytes bs ++ rest) = some (bs, rest) := by
  simp [parseBytes, serBytes, parseNat, takeSymbols_append]

theorem parseBytes_canon {l bs rest : Bytes}
    (h : parseBytes l = some (bs, rest)) : l = serBytes bs ++ rest := by
  unfold parseBytes at h
  split at h
  case _ n rest0 heq =>
    have h1 := parseNat_canon heq
    have h2 := takeSymbols_canon n rest0 bs rest h
    rw [h1, h2.1, ← h2.2]
    simp [serNat, serBytes]
  case _ => exact Option.noConfusion h

theorem parseOptBytes_ser (o : Option Bytes) (rest : Bytes) :
    parseOptBytes (serOptBytes o ++ rest) = some (o, rest) := by
  cases o with
  | none => rfl
  | some bs => simp [serOptBytes, parseOptBytes, parseBytes_ser]

theorem parseOptBytes_canon {l : Bytes} {o : Option Bytes} {rest : Bytes}
    (h : parseOptBytes l = some (o, rest)) : l = serOptBytes o ++ rest := by
  cases l with
  | nil => exact Option.noConfusion h
  | cons a t =>
    simp only [parseOptBytes] at h
    split_ifs at h with h0 h1
    · subst h0
      rw [Option.some.injEq, Prod.mk.injEq] at h
      simp [serOptBytes, ← h.1, h.2]
    · subst h1
      split at h
      case _ bs r heq =>
        rw [Option.some.injEq, Prod.mk.injEq] at h
        obtain ⟨ho, hr⟩ := h
        subst ho
        subst hr
        rw [serOptBytes, parseBytes_canon heq]
        simp
      case _ => exact Option.noConfusion h

theorem parseCount_ser {α : Type} (p : Bytes → Option (α × Bytes))
    (f : α → Bytes) (hp : ∀ x rest, p (f x ++ rest) = some (x, rest)) :
    ∀ (xs : List α) (rest : Bytes),
      parseCount p xs.length ((xs.map f).flatten ++ rest) = some (xs, rest) := by
  intro xs
  induction xs with
  | nil => intro rest; rfl
  | cons x t ih =>
    intro rest
    simp only [List.map_cons, List.flatten_cons, List.length_cons,
      List.append_assoc]
    simp [parseCount, hp x ((t.map f).flatten ++ rest), ih rest]

theorem parseCount_canon {α : Type} (p : Bytes → Option (α × Bytes))
    (f : α → Bytes) (hc : ∀ l x r, p l = some (x, r) → l = f x ++ r) :
    ∀ (n : Nat) (l : Bytes) (xs : List α) (r : Bytes),
      parseCount p n l = some (xs, r) →
        l = (xs.map f).flatten ++ r ∧ xs.length = n := by
  intro n
  induction n with
  | zero =>
    intro l xs r h
    simp only [parseCount, Option.some.injEq, Prod.mk.injEq] at h
    simp [← h.1, ← h.2]
  | succ n ih =>
    intro l xs r h
    unfold parseCount at h
    split at h
    case _ x r1 heq1 =>
      split at h
      case _ xs2 r2 heq2 =>
        rw [Option.some.injEq, Prod.mk.injEq] at h
        obtain ⟨hxs, hr⟩ := h
        have h1 := hc l x r1 heq1
        obtain ⟨hflat, hlen⟩ := ih r1 xs2 r2 heq2
        subst hxs
        subst hr
        rw [h1, hflat]
        simp [hlen]
      case _ => exact Option.noConfusion h
    case _ => exact Option.noConfusion h

theorem parseListWith_ser {α : Type} (p : Bytes → Option (α × Bytes))
    (f : α → Bytes) (hp : ∀ x rest, p (f x ++ rest) = some (x, rest))
    (xs : List α) (rest : Bytes) :
    parseListWith p (serListWith f xs ++ rest) = some (xs, rest) := by
  simp only [parseListWith, serListWith, List.cons_append, parseNat]
  exact parseCount_ser p f hp xs rest

theorem parseListWith_canon {α : Type} (p : Bytes → Option (α × Bytes))
    (f : α → Bytes) (hc : ∀ l x r, p l = some (x, r) → l = f x ++ r)
    {l : Bytes} {xs : List α} {r : Bytes}
    (h : parseListWith p l = some (xs, r)) : l = serListWith f xs ++ r := by
  unfold parseListWith at h
  split at h
  case _ n rest0 heq =>
    have h1 := parseNat_canon heq
    have h2 := parseCount_canon p f hc n rest0 xs r h
    rw [h1, h2.1, ← h2.2]
    simp [serNat, serListWith]
  case _ => exact Option.noConfusion h

theorem parsePermissionSet_ser (s : PermissionSet) (rest : Bytes) :
    parsePermissionSet (serPermissionSet s ++ rest) = some (s, rest) := by
  obtain ⟨r, i, u, d, m⟩ := s
  simp [serPermissionSet, parsePermissionSet, List.append_assoc, parseBool_ser]

theorem parsePermissionSet_canon {l : Bytes} {s : PermissionSet} {rest : Bytes}
    (h : parsePermissionSet l = some (s, rest)) :
    l = serPermissionSet s ++ rest := by
  unfold parsePermissionSet at h
  split at h
  case _ r l1 heq1 =>
    split at h
    case _ i l2 heq2 =>
      split at h
      case _ u l3 heq3 =>
        split at h
        case _ d l4 heq4 =>
          split at h
          case _ m l5 heq5 =>
            rw [Option.some.injEq, Prod.mk.injEq] at h
            obtain ⟨hs, hr⟩ := h
            subst hs
            subst hr
            rw [parseBool_canon heq1, parseBool_canon heq2,
              parseBool_canon heq3, parseBool_canon heq4,
              parseBool_canon heq5]
            simp [serPermissionSet]
          case _ => exact Option.noConfusion h
        case _ => exact Option.noConfusion h
      case _ => exact Option.noConfusion h
    case _ => exact Option.noConfusion h
  case _ => exact Option.noConfusion h

theorem parseAppExchangeInfo_ser (a : AppExchangeInfo) (rest : Bytes) :
    parseAppExchangeInfo (serAppExchangeInfo a ++ rest) = some (a, rest) := by
  obtain ⟨i, s, n, v⟩ := a
  simp [serAppExchangeInfo, parseAppExchangeInfo, List.append_assoc,
    parseBytes_ser, parseOptBytes_ser]

theorem parseAppExchangeInfo_canon {l : Bytes} {a : AppExchangeInfo}
    {rest : Bytes} (h : parseAppExchangeInfo l = some (a, rest)) :
    l = serAppExchangeInfo a ++ rest := by
  unfold parseAppExchangeInfo at h
  split at h
  case _ i l1 heq1 =>
    split at h
    case _ s l2 heq2 =>
      split at h
      case _ n l3 heq3 =>
        split at h
        case _ v l4 heq4 =>
          rw [Option.some.injEq, Prod.mk.injEq] at h
          obtain ⟨ha, hr⟩ := h
          subst ha
          subst hr
          rw [parseBytes_canon heq1, parseOptBytes_canon heq2,
            parseBytes_canon heq3, parseBytes_canon heq4]
          simp [serAppExchangeInfo]
        case _ => exact Option.noConfusion h
      case _ => exact Option.noConfusion h
    case _ => exact Option.noConfusion h
  case _ => exact Option.noConfusion h

theorem parseContainerPermissions_ser (c : ContainerPermissions) (rest : Bytes) :
    parseContainerPermissions (serContainerPermissions c ++ rest) =
      some (c, rest) := by
  obtain ⟨n, a⟩ := c
  simp [serContainerPermissions, parseContainerPermissions, List.append_assoc,
    parseBytes_ser, parsePermissionSet_ser]

theorem parseContainerPermissions_canon {l : Bytes} {c : ContainerPermissions}
    {rest : Bytes} (h : parseContainerPermissions l = some (c, rest)) :
    l = serContainerPermissions c ++ rest := by
  unfold parseContainerPermissions at h
  split at h
  case _ n l1 heq1 =>
    split at h
    case _ a l2 heq2 =>
      rw [Option.some.injEq, Prod.mk.injEq] at h
      obtain ⟨hc, hr⟩ := h
      subst hc
      subst hr
      rw [parseBytes_canon heq1, parsePermissionSet_canon heq2]
      simp [serContainerPermissions]
    case _ => exact Option.noConfusion h
  case _ => exact Option.noConfusion h

theorem parseShareMData_ser (s : ShareMData) (rest : Bytes) :
    parseShareMData (serShareMData s ++ rest) = some (s, rest) := by
  obtain ⟨t, n, p⟩ := s
  simp [serShareMData, parseShareMData, List.append_assoc, serNat, parseNat,
    parseBytes_ser, parsePermissionSet_ser]

theorem parseShareMData_canon {l : Bytes} {s : ShareMData} {rest : Bytes}
    (h : parseShareMData l = some (s, rest)) :
    l = serShareMData s ++ rest := by
  unfold parseShareMData at h
  split at h
  case _ t l1 heq1 =>
    split at h
    case _ n l2 heq2 =>
      split at h
      case _ p l3 heq3 =>
        rw [Option.some.injEq, Prod.mk.injEq] at h
        obtain ⟨hs, hr⟩ := h
        subst hs
        subst hr
        rw [parseNat_canon heq1, parseBytes_canon heq2,
          parsePermissionSet_canon heq3]
        simp [serShareMData]
      case _ => exact Option.noConfusion h
    case _ => exact Option.noConfusion h
  case _ => exact Option.noConfusion h

theorem parseAuthReq_ser (r : AuthReq) (rest : Bytes) :
    parseAuthReq (serAuthReq r ++ rest) = some (r, rest) := by
  obtain ⟨a, c, cs⟩ := r
  simp only [serAuthReq, parseAuthReq, List.append_assoc,
    parseAppExchangeInfo_ser, parseBool_ser,
    parseListWith_ser parseContainerPermissions serContainerPermissions
      parseContainerPermissions_ser]

theorem parseAuthReq_canon {l : Bytes} {r : AuthReq} {rest : Bytes}
    (h : parseAuthReq l = some (r, rest)) : l = serAuthReq r ++ rest := by
  unfold parseAuthReq at h
  split at h
  case _ a l1 heq1 =>
    split at h
    case _ c l2 heq2 =>
      split at h
      case _ cs l3 heq3 =>
        rw [Option.some.injEq, Prod.mk.injEq] at h
        obtain ⟨hr, hrest⟩ := h
        subst hr
        subst hrest
        rw [parseAppExchangeInfo_canon heq1, parseBool_canon heq2,
          parseListWith_canon parseContainerPermissions serContainerPermissions
            (fun l x r h => parseContainerPermissions_canon h) heq3]
        simp [serAuthReq]
      case _ => exact Option.noConfusion h
    case _ => exact Option.noConfusion h
  case _ => exact Option.noConfusion h

theorem parseContainersReq_ser (r : ContainersReq) (rest : Bytes) :
    parseContainersReq (serContainersReq r ++ rest) = some (r, rest) := by
  obtain ⟨a, cs⟩ := r
  simp only [serContainersReq, parseContainersReq, List.append_assoc,
    parseAppExchangeInfo_ser,
    parseListWith_ser parseContainerPermissions serContainerPermissions
      parseContainerPermissions_ser]

theorem parseContainersReq_canon {l : Bytes} {r : ContainersReq} {rest : Bytes}
    (h : parseContainersReq l = some (r, rest)) :
    l = serContainersReq r ++ rest := by
  unfold parseContainersReq at h
  split at h
  case _ a l1 heq1 =>
    split at h
    case _ cs l2 heq2 =>
      rw [Option.some.injEq, Prod.mk.injEq] at h
      obtain ⟨hr, hrest⟩ := h
      subst hr
      subst hrest
      rw [parseAppExchangeInfo_canon heq1,
        parseListWith_canon parseContainerPermissions serContainerPermissions
          (fun l x r h => parseContainerPermissions_canon h) heq2]
      simp [serContainersReq]
    case _ => exact Option.noConfusion h
  case _ => exact Option.noConfusion h

theorem parseShareMDataReq_ser (r : ShareMDataReq) (rest : Bytes) :
    parseShareMDataReq (serShareMDataReq r ++ rest) = some (r, rest) := by
  obtain ⟨a, ms⟩ := r
  simp only [serShareMDataReq, parseShareMDataReq, List.append_assoc,
    parseAppExchangeInfo_ser,
    parseListWith_ser parseShareMData serShareMData parseShareMData_ser]

theorem parseShareMDataReq_canon {l : Bytes} {r : ShareMDataReq} {rest : Bytes}
    (h : parseShareMDataReq l = some (r, rest)) :
    l = serShareMDataReq r ++ rest := by
  unfold parseShareMDataReq at h
  split at h
  case _ a l1 heq1 =>
    split at h
    case _ ms l2 heq2 =>
      rw [Option.some.injEq, Prod.mk.injEq] at h
      obtain ⟨hr, hrest⟩ := h
      subst hr
      subst hrest
      rw [parseAppExchangeInfo_canon heq1,
        parseListWith_canon parseShareMData serShareMData
          (fun l x r h => parseShareMData_canon h) heq2]
      simp [serShareMDataReq]
    case _ => exact Option.noConfusion h
  case _ => exact Option.noConfusion h

theorem parseAuthRequest_ser (r : AuthRequest) (rest : Bytes) :
    parseAuthRequest (serAuthRequest r ++ rest) = some (r, rest) := by
  cases r with
  | authReq a =>
    simp [serAuthRequest, parseAuthRequest, parseAuthReq_ser]
  | containersReq c =>
    simp [serAuthRequest, parseAuthRequest, parseContainersReq_ser]
  | unregisteredReq =>
    simp [serAuthRequest, parseAuthRequest]
  | shareMDataReq s =>
    simp [serAuthRequest, parseAuthRequest, parseShareMDataReq_ser]

theorem parseAuthRequest_canon {l : Bytes} {r : AuthRequest} {rest : Bytes}
    (h : parseAuthRequest l = some (r, rest)) :
    l = serAuthRequest r ++ rest := by
  cases l with
  | nil => exact Option.noConfusion h
  | cons tag t =>
    simp only [parseAuthRequest] at h
    split_ifs at h with h0 h1 h2 h3
    · subst h0
      split at h
      case _ a l1 heq =>
        rw [Option.some.injEq, Prod.mk.injEq] at h
        obtain ⟨hr, hrest⟩ := h
        subst hr
        subst hrest
        rw [serAuthRequest, parseAuthReq_canon heq]
        simp
      case _ => exact Option.noConfusion h
    · subst h1
      split at h
      case _ c l1 heq =>
        rw [Option.some.injEq, Prod.mk.injEq] at h
        obtain ⟨hr, hrest⟩ := h
        subst hr
        subst hrest
        rw [serAuthRequest, parseContainersReq_canon heq]
        simp
      case _ => exact Option.noConfusion h
    · subst h2
      rw [Option.some.injEq, Prod.mk.injEq] at h
      obtain ⟨hr, hrest⟩ := h
      subst hrest
      rw [← hr, serAuthRequest]
      simp
    · subst h3
      split at h
      case _ s l1 heq =>
        rw [Option.some.injEq, Prod.mk.injEq] at h
        obtain ⟨hr, hrest⟩ := h
        subst hr
        subst hrest
        rw [serAuthRequest, parseShareMDataReq_canon heq]
        simp
      case _ => exact Option.noConfusion h

/-! ## Claim theorems -/

/-- C1: for every mutable record and every entry-action batch, if any
single action in the batch carries an expected version that does not equal
the current version of the entry it targets, the whole batch fails with
`VersionConflict` and no action of the batch is applied (no mutated
entries are produced). -/
theorem mutate_stale_version_aborts_batch (es : MDataEntries)
    (acts : List MDataEntryAction) (a : MDataEntryAction)
    (ha : a ∈ acts) (hstale : actionVersionConflict es a = true) :
    mdata_mutate_entries es acts = .error .versionConflict := by
  unfold mdata_mutate_entries
  rw [if_pos (List.any_eq_true.mpr ⟨a, ha, hstale⟩)]

/-- Witness for C1: a one-action batch updating key `[0]` (current version
5) with expected version 3 fails with `VersionConflict`. -/
theorem mutate_stale_version_aborts_batch_witness :
    mdata_mutate_entries [([0], ⟨[1], 5⟩)] [.update [0] [2] 3] =
      .error .versionConflict :=
  mutate_stale_version_aborts_batch [([0], ⟨[1], 5⟩)] [.update [0] [2] 3]
    (.update [0] [2] 3) (List.mem_singleton.mpr rfl) (by decide)

/-- C2: the effective access decision is computed in exactly the order
specific-deny, specific-allow, anyone-deny, anyone-allow, owner-override,
default-deny: a user-specific `Denied` denies, else a user-specific
`Allowed` allows, else the "anyone" entry is consulted with the same
deny-before-allow rule, else the owner is granted every action, and any
other identity is denied. -/
theorem effective_decision_eval_order (ps : MDataPermissions)
    (ownerKey userKey : Nat) (a : MDataAction) :
    (userActionValue ps (.specific userKey) a = .denied →
      effectiveDecision ps ownerKey userKey a = false)
    ∧ (userActionValue ps (.specific userKey) a = .allowed →
      effectiveDecision ps ownerKey userKey a = true)
    ∧ (userActionValue ps (.specific userKey) a = .notSet →
      userActionValue ps .anyone a = .denied →
      effectiveDecision ps ownerKey userKey a = false)
    ∧ (userActionValue ps (.specific userKey) a = .notSet →
      userActionValue ps .anyone a = .allowed →
      effectiveDecision ps ownerKey userKey a = true)
    ∧ (userActionValue ps (.specific userKey) a = .notSet →
      userActionValue ps .anyone a = .notSet →
      userKey = ownerKey →
      effectiveDecision ps ownerKey userKey a = true)
    ∧ (userActionValue ps (.specific userKey) a = .notSet →
      userActionValue ps .anyone a = .notSet →
      userKey ≠ ownerKey →
      effectiveDecision ps ownerKey userKey a = false) := by
  refine ⟨fun h1 => ?_, fun h1 => ?_, fun h1 h2 => ?_, fun h1 h2 => ?_,
    fun h1 h2 h3 => ?_, fun h1 h2 h3 => ?_⟩
  · simp [effectiveDecision, h1]
  · simp [effectiveDecision, h1]
  · simp [effectiveDecision, h1, h2]
  · simp [effectiveDecision, h1, h2]
  · subst h3
    simp [effectiveDecision, h1, h2]
  · simp [effectiveDecision, h1, h2, h3]

/-- Witness for C2: with an empty access-control list, the owner is
granted `managePermissions` (owner-override stage) — obtained by applying
the evaluation-order theorem at a concrete configuration. -/
theorem effective_decision_eval_order_witness :
    effectiveDecision [] 7 7 .managePermissions = true :=
  (effective_decision_eval_order [] 7 7 .managePermissions).2.2.2.2.1
    rfl rfl rfl

/-- C3: encoding any request variant (`AuthReq`, `ContainersReq`,
`UnregisteredReq`, `ShareMDataReq`) to an IPC token and decoding that
token dispatches to the matching variant callback carrying the same
request id and a structure identical to the original request. -/
theorem ipc_encode_decode_round_trip (reqId : Nat) (r : AuthRequest) :
    auth_decode_ipc_msg (ipcEncodeRequest reqId r) = outcomeOfRequest reqId r := by
  have h1 : parseAuthRequest (serAuthRequest r) = some (r, []) := by
    simpa using parseAuthRequest_ser r []
  simp [auth_decode_ipc_msg, ipcEncodeRequest, serNat, parseNat, h1]

/-- C4: decode is total and dispatches every token to exactly one outcome:
a token produced by encode reaches the matching variant callback with its
request id, and every other token — malformed or unrecognized — reaches
the error callback with a `DecodeError` cause. -/
theorem ipc_decode_total_dispatch (msg : Bytes) :
    (∃ reqId r, msg = ipcEncodeRequest reqId r ∧
      auth_decode_ipc_msg msg = outcomeOfRequest reqId r)
    ∨ ((∀ reqId r, msg ≠ ipcEncodeRequest reqId r) ∧
      ∃ cause, auth_decode_ipc_msg msg = .err cause) := by
  cases hn : parseNat msg with
  | none =>
    right
    refine ⟨?_, ?_⟩
    · intro reqId r hmsg
      rw [hmsg, ipcEncodeRequest, parseNat_ser] at hn
      exact Option.noConfusion hn
    · exact ⟨"CoreError - Unexpected: malformed IPC token",
        by simp [auth_decode_ipc_msg, hn]⟩
  | some v =>
    obtain ⟨reqId, rest⟩ := v
    cases hp : parseAuthRequest rest with
    | none =>
      right
      refine ⟨?_, ?_⟩
      · intro reqId2 r hmsg
        rw [hmsg, ipcEncodeRequest, parseNat_ser] at hn
        rw [Option.some.injEq, Prod.mk.injEq] at hn
        have h1 : parseAuthRequest (serAuthRequest r) = some (r, []) := by
          simpa using parseAuthRequest_ser r []
        rw [← hn.2, h1] at hp
        exact Option.noConfusion hp
      · exact ⟨"CoreError - Unexpected: malformed IPC token",
          by simp [auth_decode_ipc_msg, hn, hp]⟩
    | some w =>
      obtain ⟨req, remaining⟩ := w
      cases remaining with
      | nil =>
        left
        refine ⟨reqId, req, ?_, ?_⟩
        · have hm := parseNat_canon hn
          have hr := parseAuthRequest_canon hp
          rw [hm, hr, ipcEncodeRequest]
          simp
        · simp [auth_decode_ipc_msg, hn, hp]
      | cons x xs =>
        right
        refine ⟨?_, ?_⟩
        · intro reqId2 r hmsg
          rw [hmsg, ipcEncodeRequest, parseNat_ser] at hn
          rw [Option.some.injEq, Prod.mk.injEq] at hn
          have h1 : parseAuthRequest (serAuthRequest r) = some (r, []) := by
            simpa using parseAuthRequest_ser r []
          rw [← hn.2, h1] at hp
          rw [Option.some.injEq, Prod.mk.injEq] at hp
          exact List.noConfusion hp.2
        · exact ⟨"CoreError - Unexpected: malformed IPC token",
            by simp [auth_decode_ipc_msg, hn, hp]⟩

/-- Witness for C4: the empty token is malformed — it is not the encoding
of any request and decode dispatches it to the error callback. -/
theorem ipc_decode_total_dispatch_witness :
    (∃ reqId r, ([] : Bytes) = ipcEncodeRequest reqId r ∧
      auth_decode_ipc_msg [] = outcomeOfRequest reqId r)
    ∨ ((∀ reqId r, ([] : Bytes) ≠ ipcEncodeRequest reqId r) ∧
      ∃ cause, auth_decode_ipc_msg [] = .err cause) :=
  ipc_decode_total_dispatch []

/-- C5: writing any chunking of a byte sequence to a self-encryption
writer, closing it under a fixed cipher option, fetching a reader at the
returned content address and reading the full range returns exactly the
original byte sequence, independent of the chunking. -/
theorem self_encryption_round_trip (chunks : List Bytes) (data : Bytes)
    (co : CipherOpt) (store : ContentStore) (hjoin : chunks.flatten = data) :
    idata_fetch_self_encryptor
        (closeStore store co (writeChunks chunks).buffer)
        (closeContentAddress co (writeChunks chunks).buffer) = .ok ⟨data⟩
    ∧ idata_size (⟨data⟩ : SEReader) = data.length
    ∧ idata_read_from_self_encryptor ⟨data⟩ 0 data.length = .ok data := by
  refine ⟨?_, rfl, ?_⟩
  · rw [writeChunks_buffer, hjoin]
    simp [idata_fetch_self_encryptor, closeStore, closeContentAddress,
      List.find?, cipherDecrypt_cipherEncrypt]
  · simp [idata_read_from_self_encryptor]

/-- Witness for C5: the bytes `[104, 105]` written as the two chunks
`[104]` and `[105]`, closed under `PlainText`, read back in full. -/
theorem self_encryption_round_trip_witness :
    idata_fetch_self_encryptor
        (closeStore [] .plainText (writeChunks [[104], [105]]).buffer)
        (closeContentAddress .plainText (writeChunks [[104], [105]]).buffer) =
      .ok ⟨[104, 105]⟩
    ∧ idata_size (⟨[104, 105]⟩ : SEReader) = 2
    ∧ idata_read_from_self_encryptor ⟨[104, 105]⟩ 0 2 = .ok [104, 105] :=
  self_encryption_round_trip [[104], [105]] [104, 105] .plainText [] rfl

/-- C6: two writer sessions given the same total byte content and closed
under the same cipher option (hence the same caller-supplied key material,
carried in the option) return the same content address. -/
theorem close_address_deterministic (chunks1 chunks2 : List Bytes)
    (co : CipherOpt) (h : chunks1.flatten = chunks2.flatten) :
    closeContentAddress co (writeChunks chunks1).buffer =
      closeContentAddress co (writeChunks chunks2).buffer := by
  rw [closeContentAddress, closeContentAddress, writeChunks_buffer,
    writeChunks_buffer, h]

/-- Witness for C6: the chunkings `[[1], [2]]` and `[[1, 2]]` of the same
content close to the same address under a symmetric cipher option. -/
theorem close_address_deterministic_witness :
    closeContentAddress (.symmetric 9) (writeChunks [[1], [2]]).buffer =
      closeContentAddress (.symmetric 9) (writeChunks [[1, 2]]).buffer :=
  close_address_deterministic [[1], [2]] [[1, 2]] (.symmetric 9) rfl

/-- C7: after `free(h)` succeeds, every subsequent `resolve(h)` and every
subsequent `free(h)` fails with `HandleInvalid`; a failing call returns
only the error, leaving the registry unchanged. -/
theorem free_then_resolve_free_handle_invalid (reg reg2 : Registry Nat)
    (h : ObjectHandle) (hf : reg.free h = .ok reg2) :
    reg2.resolve h = .error .handleInvalid
    ∧ reg2.free h = .error .handleInvalid :=
  ⟨Registry.resolve_after_free reg reg2 h hf,
   Registry.free_after_free reg reg2 h hf⟩

/-- Witness for C7: freeing the only handle of a one-slot registry
succeeds, after which both resolve and free on that handle fail with
`HandleInvalid`. -/
theorem free_then_resolve_free_handle_invalid_witness :
    (Registry.mk [(1, none)] : Registry Nat).resolve ⟨0, 0⟩ =
        .error .handleInvalid
    ∧ (Registry.mk [(1, none)] : Registry Nat).free ⟨0, 0⟩ =
        .error .handleInvalid :=
  free_then_resolve_free_handle_invalid ⟨[(0, some 5)]⟩ ⟨[(1, none)]⟩ ⟨0, 0⟩
    rfl

/-- C8: flush is idempotent — running flush to completion leaves an empty
queue, running it again is a no-op, and re-invoking flush after a partial
failure that completed the first `k` steps resumes from the first
unprocessed entry and reaches the same state as an uninterrupted flush,
without re-applying completed steps. -/
theorem flush_idempotent_and_resumes (st : AuthState) (k : Nat) :
    auth_flush_app_revocation_queue (auth_flush_app_revocation_queue st) =
      auth_flush_app_revocation_queue st
    ∧ (auth_flush_app_revocation_queue st).revocationQueue = []
    ∧ auth_flush_app_revocation_queue (flushUpTo k st) =
      auth_flush_app_revocation_queue st := by
  refine ⟨rfl, rfl, ?_⟩
  unfold auth_flush_app_revocation_queue flushUpTo
  simp only
  rw [← List.foldl_append]
  rw [List.take_append_drop]

/-- C9: for a private mutable record, `getValue` returns the stored value
bytes exactly as held (the ciphertext, which differs from the plaintext)
together with the entry version, and the plaintext is recovered only by
explicitly invoking the record's decrypt operation with its keying info. -/
theorem get_value_returns_stored_ciphertext (info : MDataInfo)
    (es : MDataEntries) (k plain : Bytes) (ver key nonce : Nat)
    (hinfo : info.encInfo = some (key, nonce))
    (hstored : lookupEntry es k =
      some ⟨mdata_info_encrypt_entry_value info plain, ver⟩) :
    mdata_get_value es k = .ok (mdata_info_encrypt_entry_value info plain, ver)
    ∧ mdata_info_decrypt info (mdata_info_encrypt_entry_value info plain) =
      .ok plain
    ∧ mdata_info_encrypt_entry_value info plain ≠ plain := by
  refine ⟨?_, ?_, ?_⟩
  · unfold mdata_get_value
    rw [hstored]
  · simp [mdata_info_decrypt, mdata_info_encrypt_entry_value, hinfo,
      symDecrypt_symEncrypt]
  · intro hcontra
    have hlen := congrArg List.length hcontra
    simp [mdata_info_encrypt_entry_value, symEncrypt, hinfo] at hlen
    omega

/-- Witness for C9: a private record with key 3 and nonce 7 stores the
ciphertext `[3, 7, 4, 5]` for the plaintext `[1, 2]`; `getValue` returns
the ciphertext with version 2 and explicit decryption recovers `[1, 2]`. -/
theorem get_value_returns_stored_ciphertext_witness :
    mdata_get_value [([9], ⟨[3, 7, 4, 5], 2⟩)] [9] = .ok ([3, 7, 4, 5], 2)
    ∧ mdata_info_decrypt ⟨[], 0, some (3, 7)⟩ [3, 7, 4, 5] = .ok [1, 2]
    ∧ ([3, 7, 4, 5] : Bytes) ≠ [1, 2] :=
  get_value_returns_stored_ciphertext ⟨[], 0, some (3, 7)⟩
    [([9], ⟨[3, 7, 4, 5], 2⟩)] [9] [1, 2] 2 3 7 rfl (by decide)

/-- C10: a successful `idata_close_self_encryptor` also frees the writer
handle — every subsequent write, close, or explicit writer-free on the
same handle fails with `HandleInvalid`. -/
theorem close_frees_writer_handle (ctx ctx2 : AppIData) (h : ObjectHandle)
    (co co2 : CipherOpt) (addr : XorName) (d : Bytes)
    (hc : appIDataClose ctx h co = .ok (ctx2, addr)) :
    appIDataWrite ctx2 h d = .error .handleInvalid
    ∧ appIDataClose ctx2 h co2 = .error .handleInvalid
    ∧ appIDataWriterFree ctx2 h = .error .handleInvalid := by
  have hfree : ctx.seWriters.free h = .ok ctx2.seWriters := by
    unfold appIDataClose at hc
    split at hc
    case _ w hres =>
      split at hc
      case _ reg hfr =>
        cases hc
        exact hfr
      case _ e hfr => exact Except.noConfusion hc
    case _ e hres => exact Except.noConfusion hc
  have hres := Registry.resolve_after_free _ _ h hfree
  have hfr := Registry.free_after_free _ _ h hfree
  refine ⟨?_, ?_, ?_⟩
  · unfold appIDataWrite
    rw [hres]
  · unfold appIDataClose
    rw [hres]
  · unfold appIDataWriterFree
    rw [hfr]

/-- Witness for C10: closing the single writer of a one-slot context
succeeds, after which write, close and writer-free on that handle all fail
with `HandleInvalid`. -/
theorem close_frees_writer_handle_witness :
    appIDataWrite ⟨⟨[(1, none)]⟩, [([0, 1], [0, 1])]⟩ ⟨0, 0⟩ [9] =
        .error .handleInvalid
    ∧ appIDataClose ⟨⟨[(1, none)]⟩, [([0, 1], [0, 1])]⟩ ⟨0, 0⟩ .plainText =
        .error .handleInvalid
    ∧ appIDataWriterFree ⟨⟨[(1, none)]⟩, [([0, 1], [0, 1])]⟩ ⟨0, 0⟩ =
        .error .handleInvalid :=
  close_frees_writer_handle ⟨⟨[(0, some ⟨[1]⟩)]⟩, []⟩
    ⟨⟨[(1, none)]⟩, [([0, 1], [0, 1])]⟩ ⟨0, 0⟩ .plainText .plainText [0, 1]
    [9] rfl

end SafeNet
